import Mathlib

/-!
Verification of the CHAT ingestion/normalization core
(`chat_engine/core/ingest.py` and `chat_engine/core/normalize.py`).

The Python code is shallowly embedded: dictionaries become insertion-ordered
association lists with Python's update-in-place assignment semantics, the
fallible parsers return `Option`, machine integers are `Nat` with explicit
`% 2^32` where the source masks with `0xFFFFFFFF`, and the `csv.DictReader`
row construction, `pathlib` suffix extraction, `str.strip` / `str.split`,
`datetime.fromisoformat` / `strptime` parsing, and `zoneinfo` conversion for
`America/New_York` are modelled explicitly.  Definitions keep the source's
names where Lean allows it.
-/

/-! ### Python string primitives -/

/-- Whitespace characters recognised by Python's `str.strip()` / `str.split()`
(the ASCII ones, which are the only ones these exports contain). -/
def pyWhitespaceChar (c : Char) : Bool :=
  c = ' ' ∨ c = '\t' ∨ c = '\n' ∨ c = '\r' ∨ c = '\x0b' ∨ c = '\x0c'

/-- Python `s.strip()`: remove leading and trailing whitespace. -/
def pyStrip (s : String) : String :=
  ⟨((s.data.dropWhile pyWhitespaceChar).reverse.dropWhile pyWhitespaceChar).reverse⟩

/-- Python `s.endswith(pat)`. -/
def pyEndsWith (s pat : String) : Bool :=
  pat.data.isSuffixOf s.data

/-- The maximal runs of characters not satisfying `p`, in order (the
separator runs are discarded); `cur` holds the reversed current run. -/
def splitRuns (p : Char → Bool) : List Char → List Char → List (List Char)
  | [], cur => if cur = [] then [] else [cur.reverse]
  | c :: rest, cur =>
    if p c then
      if cur = [] then splitRuns p rest [] else cur.reverse :: splitRuns p rest []
    else splitRuns p rest (c :: cur)

/-- Python `s.split()` (no argument): split on whitespace runs, discarding
empty fields. -/
def pySplitWs (s : String) : List String :=
  (splitRuns pyWhitespaceChar s.data []).map String.mk

/-- Python `sep.join(ws)` for the single-space separator. -/
def joinSpace : List String → String
  | [] => ""
  | [w] => w
  | w :: ws => w ++ " " ++ joinSpace ws

/-- Python `s.lower()` restricted to ASCII case mapping (the dispatcher only
compares the result against ASCII extensions). -/
def pyLower (s : String) : String :=
  ⟨s.data.map (fun c => if 'A' ≤ c ∧ c ≤ 'Z' then Char.ofNat (c.toNat + 32) else c)⟩

/-! ### Python dictionaries

Python dictionaries preserve insertion order; assigning to an existing key
updates the value in place, assigning to a new key appends it.  They are
modelled as association lists with exactly those semantics. -/

/-- Python `d[k] = v` on an insertion-ordered dictionary. -/
def dictSet {α : Type} : List (String × α) → String → α → List (String × α)
  | [], k, v => [(k, v)]
  | (k0, v0) :: rest, k, v =>
    if k0 = k then (k0, v) :: rest else (k0, v0) :: dictSet rest k v

/-- Python `d.get(k)`: the value stored under `k`, if present. -/
def dictGet? {α : Type} (d : List (String × α)) (k : String) : Option α :=
  (d.find? (fun p => p.1 = k)).map (fun p => p.2)

/-- The keys of a dictionary, in insertion order (Python `list(d)`). -/
def dictKeys {α : Type} (d : List (String × α)) : List String :=
  d.map (fun p => p.1)

/-- Deterministic left-to-right key deduplication (Python
`{k: f(k) for k in ks}` produces one entry per distinct key, in
first-occurrence order). -/
def pyDistinct (ks : List String) : List String :=
  ks.foldl (fun acc k => if k ∈ acc then acc else acc ++ [k]) []

/-! ### `ingest.py`: data model -/

/-- Summary counters reported once a stream is exhausted. -/
structure IngestStats where
  rows_seen : Nat
  rows_emitted : Nat
deriving DecidableEq, Repr

/-- Raw row from input with provenance; `data` keys are the input headers
exactly as read from the file, `source_row` is 1-based excluding the
header. -/
structure IngestRow where
  data : List (String × String)
  source_row : Nat
deriving DecidableEq, Repr

/-- `_safe_str`: `""` for Python `None`, otherwise the string stripped of
surrounding whitespace. -/
def _safe_str : Option String → String
  | none => ""
  | some s => pyStrip s

/-! ### `ingest.py`: format dispatch -/

/-- The final path component (`pathlib.PurePath.name`): the last nonempty
`/`-separated segment. -/
def pathName (path : String) : String :=
  ((splitRuns (fun c => c = '/') path.data []).map String.mk).getLastD ""

/-- `pathlib.PurePath.suffix`: `name[i:]` where `i` is the index of the last
dot, provided `0 < i < len(name) - 1`; otherwise the empty string. -/
def pathSuffix (path : String) : String :=
  let nm := (pathName path).data
  match nm.reverse.findIdx? (fun c => c = '.') with
  | none => ""
  | some j =>
    let i := nm.length - 1 - j
    if 0 < i ∧ i < nm.length - 1 then ⟨nm.drop i⟩ else ""

/-- `sniff_input_type`: classify a path by lowercased extension, or fail with
an error naming the extension. -/
def sniff_input_type (path : String) : Except String String :=
  let ext := pyLower (pathSuffix path)
  if ext = ".csv" then Except.ok "csv"
  else if ext = ".xlsx" ∨ ext = ".xlsm" then Except.ok "xlsx"
  else Except.error ("Unsupported input type: " ++ ext)

/-- The two row-reader strategies. -/
inductive ReaderKind
  | csv
  | xlsx
deriving DecidableEq, Repr

/-- `iter_rows_auto`: choose the CSV or XLSX reader based on extension.  The
dispatch happens synchronously at stream construction (`iter_rows_auto` is a
plain function, not a generator), so an error means no row is ever
produced. -/
def iter_rows_auto (path : String) : Except String ReaderKind :=
  match sniff_input_type path with
  | Except.error e => Except.error e
  | Except.ok t => if t = "csv" then Except.ok ReaderKind.csv else Except.ok ReaderKind.xlsx

/-! ### `ingest.py`: CSV reader

`csv.DictReader` builds `dict(zip(fieldnames, row))` for each data row (so a
duplicated header name keeps only the value of its last column), fills
fieldnames beyond the row's length with the restval `None`, and skips blank
rows.  `iter_csv_rows` then rebuilds `{k: _safe_str(row.get(k)) for k in
fieldnames}`. -/

/-- The dictionary `csv.DictReader` produces for one data row: `dict(zip
(fieldnames, row))`, with missing trailing fieldnames set to `None`. -/
def dictReaderRow (fieldnames : List String) (values : List String) :
    List (String × Option String) :=
  let d := (fieldnames.zip values).foldl (fun d p => dictSet d p.1 (some p.2)) []
  (fieldnames.drop values.length).foldl (fun d k => dictSet d k none) d

/-- The cleaned record `iter_csv_rows` emits for one data row:
`{k: _safe_str(row.get(k)) for k in fieldnames}`. -/
def csvCleanedRow (fieldnames : List String) (values : List String) :
    List (String × String) :=
  fieldnames.foldl
    (fun d k => dictSet d k (_safe_str ((dictGet? (dictReaderRow fieldnames values) k).getD none)))
    []

/-- The enumeration loop of `iter_csv_rows`: emit one `IngestRow` per data
row, counting `rows_seen` and `rows_emitted`. -/
def csvLoop (fieldnames : List String) :
    Nat → Nat → Nat → List (List String) → List IngestRow × IngestStats
  | _, seen, emitted, [] => ([], ⟨seen, emitted⟩)
  | idx, seen, emitted, r :: rs =>
    let rest := csvLoop fieldnames (idx + 1) (seen + 1) (emitted + 1) rs
    (⟨csvCleanedRow fieldnames r, idx⟩ :: rest.1, rest.2)

/-- `iter_csv_rows`, over an already-decoded CSV: the header row (`none` when
the file is empty, in which case `reader.fieldnames is None`) and the raw
data rows.  `csv.DictReader` skips blank rows before enumeration. -/
def iter_csv_rows (fieldnames : Option (List String)) (rawRows : List (List String)) :
    List IngestRow × IngestStats :=
  match fieldnames with
  | none => ([], ⟨0, 0⟩)
  | some fns => csvLoop fns 1 0 0 (rawRows.filter (fun r => r ≠ []))

/-! ### `ingest.py`: header deduplication and the XLSX row shape -/

/-- The base name used by `_dedupe_headers`: a blank header becomes the
placeholder `"COL"`. -/
def dedupeBase (h : String) : String := if h = "" then "COL" else h

/-- The output name `_dedupe_headers` emits for the `count`-th occurrence of
`base` (`base if count == 1 else f"{base}_{count}"`). -/
def dedupeName (base : String) (count : Nat) : String :=
  if count = 1 then base else base ++ "_" ++ Nat.repr count

/-- The loop of `_dedupe_headers`, with the `seen` occurrence counters
(`seen.get(base, 0)`) made explicit. -/
def dedupeHeadersAux : List String → (String → Nat) → List String
  | [], _ => []
  | h :: t, seen =>
    let base := dedupeBase h
    let count := seen base + 1
    dedupeName base count :: dedupeHeadersAux t (fun b => if b = base then count else seen b)

/-- `_dedupe_headers`: suffix duplicate column names deterministically. -/
def _dedupe_headers (headers : List String) : List String :=
  dedupeHeadersAux headers (fun _ => 0)

/-- The record `iter_xlsx_rows` builds for one data row, after its headers
have been deduplicated: `{headers[i]: _safe_str(values[i]) if i <
len(values) else "" for i in range(len(headers))}` (cells are `None` when
empty). -/
def xlsxRowData (headers : List String) (values : List (Option String)) :
    List (String × String) :=
  (List.range headers.length).foldl
    (fun d i =>
      dictSet d (headers.getD i "")
        (if i < values.length then _safe_str (values.getD i none) else ""))
    []

/-! ### `normalize.py`: FNV-1a -/

/-- One step of `_fnv1a_32`: `h ^= b; h = (h * 16777619) & 0xFFFFFFFF`. -/
def fnv1aStep (h b : Nat) : Nat := ((h ^^^ b) * 16777619) % 4294967296

/-- The byte loop of `_fnv1a_32`. -/
def fnv1aRun : Nat → List Nat → Nat
  | h, [] => h
  | h, b :: bs => fnv1aRun (fnv1aStep h b) bs

/-- UTF-8 encoding of one code point (every Lean `Char` is a Unicode scalar
value, so Python's `errors="replace"` never fires). -/
def utf8EncodeCp (c : Nat) : List Nat :=
  if c < 128 then [c]
  else if c < 2048 then [192 + c / 64, 128 + c % 64]
  else if c < 65536 then [224 + c / 4096, 128 + (c / 64) % 64, 128 + c % 64]
  else [240 + c / 262144, 128 + (c / 4096) % 64, 128 + (c / 64) % 64, 128 + c % 64]

/-- The UTF-8 byte sequence of a string (`text.encode("utf-8")`). -/
def utf8Bytes (s : String) : List Nat :=
  s.data.flatMap (fun ch => utf8EncodeCp ch.toNat)

/-- `_fnv1a_32`: deterministic 32-bit FNV-1a hash with offset basis
2166136261 and prime 16777619. -/
def _fnv1a_32 (text : String) : Nat :=
  fnv1aRun 2166136261 (utf8Bytes text)

/-- `_stable_key`: the decimal string of the FNV-1a hash of
`f"{ts_raw}|{sender}|{recipient}"`. -/
def _stable_key (ts_raw sender recipient : String) : String :=
  Nat.repr (_fnv1a_32 (ts_raw ++ "|" ++ sender ++ "|" ++ recipient))

/-! ### `normalize.py`: calendar arithmetic

Civil-date / day-count conversions (Howard Hinnant's algorithms), used to
model Python's `datetime` arithmetic and the `zoneinfo` conversion.  All
divisions are Euclidean; the era adjustments keep the operands nonnegative
exactly as in the original algorithms. -/

/-- Leap-year rule of the proleptic Gregorian calendar. -/
def isLeapYear (y : Nat) : Bool := y % 4 = 0 ∧ (y % 100 ≠ 0 ∨ y % 400 = 0)

/-- Days in a month of the proleptic Gregorian calendar. -/
def daysInMonth (y m : Nat) : Nat :=
  if m = 2 then (if isLeapYear y then 29 else 28)
  else if m = 4 ∨ m = 6 ∨ m = 9 ∨ m = 11 then 30
  else 31

/-- Days since 1970-01-01 of a civil date. -/
def daysFromCivil (y : Int) (m d : Nat) : Int :=
  let yAdj : Int := if m ≤ 2 then y - 1 else y
  let era : Int := Int.ediv yAdj 400
  let yoe : Int := yAdj - era * 400
  let mp : Int := Int.emod (Int.ofNat m + 9) 12
  let doy : Int := Int.ediv (153 * mp + 2) 5 + Int.ofNat d - 1
  let doe : Int := yoe * 365 + Int.ediv yoe 4 - Int.ediv yoe 100 + doy
  era * 146097 + doe - 719468

/-- Civil date of a count of days since 1970-01-01. -/
def civilFromDays (z0 : Int) : Int × Nat × Nat :=
  let z : Int := z0 + 719468
  let era : Int := Int.ediv z 146097
  let doe : Int := z - era * 146097
  let yoe : Int :=
    Int.ediv (doe - Int.ediv doe 1460 + Int.ediv doe 36524 - Int.ediv doe 146096) 365
  let y : Int := yoe + era * 400
  let doy : Int := doe - (365 * yoe + Int.ediv yoe 4 - Int.ediv yoe 100)
  let mp : Int := Int.ediv (5 * doy + 2) 153
  let d : Int := doy - Int.ediv (153 * mp + 2) 5 + 1
  let m : Int := if mp < 10 then mp + 3 else mp - 9
  (y + (if m ≤ 2 then 1 else 0), m.toNat, d.toNat)

/-- Day of week (0 = Sunday) of a civil date; 1970-01-01 was a Thursday. -/
def dayOfWeek (y : Int) (m d : Nat) : Nat :=
  (Int.emod (daysFromCivil y m d + 4) 7).toNat

/-- Day of month of the `n`-th Sunday (1-based) of a month. -/
def nthSunday (y : Int) (m n : Nat) : Nat :=
  1 + (7 - dayOfWeek y m 1) % 7 + 7 * (n - 1)

/-! ### `normalize.py`: the `America/New_York` zone

Models the IANA `America/New_York` rules in effect since 2007 (EST = UTC-5,
EDT = UTC-4; DST from the second Sunday of March at 02:00 to the first
Sunday of November at 02:00), with PEP 495 `fold=0` semantics for naive
datetimes: times inside the spring-forward gap get the pre-transition
offset, ambiguous fall-back times get the first (EDT) offset.  The zone
database is an external capability of the program (`zoneinfo`); only this
zone, the configured fallback, is modelled. -/

/-- Whether a naive New York wall-clock time is in daylight saving. -/
def nyIsDst (y : Int) (mo d h : Nat) : Bool :=
  if mo < 3 ∨ 11 < mo then false
  else if 3 < mo ∧ mo < 11 then true
  else if mo = 3 then
    let ss := nthSunday y 3 2
    ss < d ∨ (d = ss ∧ 3 ≤ h)
  else
    let fs := nthSunday y 11 1
    d < fs ∨ (d = fs ∧ h < 2)

/-! ### `normalize.py`: datetime values and parsing -/

/-- A Python `datetime`: civil fields plus an optional fixed UTC offset in
seconds (`None` for a naive value). -/
structure PyDatetime where
  year : Nat
  month : Nat
  day : Nat
  hour : Nat
  minute : Nat
  second : Nat
  microsecond : Nat
  tzOffsetSecs : Option Int
deriving DecidableEq, Repr

/-- A civil time zone: the UTC offset in seconds it assigns to a naive local
datetime. -/
def LocalZone : Type := PyDatetime → Int

/-- UTC offset in seconds of `America/New_York` for a naive local datetime. -/
def americaNewYork : LocalZone :=
  fun dt => if nyIsDst (Int.ofNat dt.year) dt.month dt.day dt.hour then -14400 else -18000

/-- The `datetime` constructor's validation: `ValueError` (modelled as
`none`) outside the documented field ranges. -/
def mkDatetime? (y mo d h mi s us : Nat) (tz : Option Int) : Option PyDatetime :=
  if 1 ≤ y ∧ y ≤ 9999 ∧ 1 ≤ mo ∧ mo ≤ 12 ∧ 1 ≤ d ∧ d ≤ daysInMonth y mo
      ∧ h ≤ 23 ∧ mi ≤ 59 ∧ s ≤ 59 ∧ us ≤ 999999 then
    some ⟨y, mo, d, h, mi, s, us, tz⟩
  else none

/-- The numeric value of a decimal digit character. -/
def digitVal? (c : Char) : Option Nat :=
  if '0' ≤ c ∧ c ≤ '9' then some (c.toNat - 48) else none

/-- Exactly two decimal digits. -/
def take2Digits : List Char → Option (Nat × List Char)
  | c1 :: c2 :: rest =>
    match digitVal? c1, digitVal? c2 with
    | some a, some b => some (a * 10 + b, rest)
    | _, _ => none
  | _ => none

/-- Exactly four decimal digits. -/
def take4Digits : List Char → Option (Nat × List Char)
  | c1 :: c2 :: c3 :: c4 :: rest =>
    match digitVal? c1, digitVal? c2, digitVal? c3, digitVal? c4 with
    | some a, some b, some c, some d => some (((a * 10 + b) * 10 + c) * 10 + d, rest)
    | _, _, _, _ => none
  | _ => none

/-- A maximal run of decimal digits (at most `max` of them). -/
def takeDigitsUpTo : Nat → List Char → (List Nat × List Char)
  | 0, l => ([], l)
  | _, [] => ([], [])
  | maxLeft + 1, c :: rest =>
    match digitVal? c with
    | none => ([], c :: rest)
    | some a =>
      let t := takeDigitsUpTo maxLeft rest
      (a :: t.1, t.2)

/-- Decimal value of a digit list (most significant first). -/
def digitsToNat (ds : List Nat) : Nat := ds.foldl (fun a d => a * 10 + d) 0

/-- An expected literal character. -/
def expectChar (c : Char) : List Char → Option (List Char)
  | c0 :: rest => if c0 = c then some rest else none
  | [] => none

/-- The time part of `datetime.fromisoformat`'s grammar
(`HH[:MM[:SS[.fff[fff]]]]`, fraction exactly 3 or 6 digits), as documented
for the Python versions this program targets. -/
def parseIsoTime (l : List Char) : Option (Nat × Nat × Nat × Nat × List Char) :=
  match take2Digits l with
  | none => none
  | some (h, r1) =>
    match r1 with
    | ':' :: r2 =>
      match take2Digits r2 with
      | none => none
      | some (mi, r3) =>
        match r3 with
        | ':' :: r4 =>
          match take2Digits r4 with
          | none => none
          | some (s, r5) =>
            match r5 with
            | '.' :: r6 =>
              let t := takeDigitsUpTo 6 r6
              if t.1.length = 6 then some (h, mi, s, digitsToNat t.1, t.2)
              else if t.1.length = 3 then some (h, mi, s, digitsToNat t.1 * 1000, t.2)
              else none
            | _ => some (h, mi, s, 0, r5)
        | _ => some (h, mi, 0, 0, r3)
    | _ => some (h, 0, 0, 0, r1)

/-- The UTC-offset part of `datetime.fromisoformat`'s grammar
(`[+-]HH:MM[:SS]`); an offset of 24 hours or more raises, i.e. fails. -/
def parseIsoOffset : List Char → Option (Option Int × List Char)
  | [] => some (none, [])
  | c :: rest =>
    if c = '+' ∨ c = '-' then
      match take2Digits rest with
      | none => none
      | some (oh, r1) =>
        match r1 with
        | ':' :: r2 =>
          match take2Digits r2 with
          | none => none
          | some (om, r3) =>
            let tail := match r3 with
              | ':' :: r4 =>
                match take2Digits r4 with
                | none => none
                | some (os, r5) => some (os, r5)
              | _ => some (0, r3)
            match tail with
            | none => none
            | some (os, r5) =>
              if oh ≤ 23 ∧ om ≤ 59 ∧ os ≤ 59 then
                let secs : Int := Int.ofNat (oh * 3600 + om * 60 + os)
                some (some (if c = '-' then -secs else secs), r5)
              else none
        | _ => none
    else none

/-- `datetime.fromisoformat`: `YYYY-MM-DD`, optionally a one-character
separator, the time, and an offset; the whole string must be consumed. -/
def pyFromisoformat (s : String) : Option PyDatetime :=
  match take4Digits s.data with
  | none => none
  | some (y, r1) =>
    match expectChar '-' r1 with
    | none => none
    | some r2 =>
      match take2Digits r2 with
      | none => none
      | some (mo, r3) =>
        match expectChar '-' r3 with
        | none => none
        | some r4 =>
          match take2Digits r4 with
          | none => none
          | some (d, r5) =>
            match r5 with
            | [] => mkDatetime? y mo d 0 0 0 0 none
            | _ :: r6 =>
              match parseIsoTime r6 with
              | none => none
              | some (h, mi, sec, us, r7) =>
                match parseIsoOffset r7 with
                | none => none
                | some (tz, r8) =>
                  if r8 = [] then mkDatetime? y mo d h mi sec us tz else none

/-- `_try_fromiso`: rewrite a trailing `"Z"` to `"+00:00"`, then attempt
`datetime.fromisoformat`; any failure yields `None`. -/
def _try_fromiso (s : String) : Option PyDatetime :=
  let s2 := if pyEndsWith s "Z" then String.mk s.data.dropLast ++ "+00:00" else s
  pyFromisoformat s2

/-! ### `normalize.py`: `strptime` for the eight export formats -/

/-- One token of a `strptime` format string: a literal character, a
whitespace run (CPython compiles whitespace in the format to a one-or-more
whitespace match), or a numeric directive. -/
inductive FmtTok
  | lit (c : Char)
  | ws
  | dY
  | dm
  | dd
  | dH
  | dM
  | dS
  | dy
  | df
deriving DecidableEq, Repr

/-- Translate a format string into tokens; an unsupported directive fails. -/
def parseFmtChars : List Char → Option (List FmtTok)
  | [] => some []
  | '%' :: c :: rest =>
    let tok : Option FmtTok :=
      if c = 'Y' then some FmtTok.dY
      else if c = 'm' then some FmtTok.dm
      else if c = 'd' then some FmtTok.dd
      else if c = 'H' then some FmtTok.dH
      else if c = 'M' then some FmtTok.dM
      else if c = 'S' then some FmtTok.dS
      else if c = 'y' then some FmtTok.dy
      else if c = 'f' then some FmtTok.df
      else none
    match tok, parseFmtChars rest with
    | some t, some ts => some (t :: ts)
    | _, _ => none
  | '%' :: [] => none
  | c :: rest =>
    match parseFmtChars rest with
    | some ts => some ((if pyWhitespaceChar c then FmtTok.ws else FmtTok.lit c) :: ts)
    | none => none

/-- The fields `strptime` accumulates, with CPython's defaults (year 1900,
month and day 1, time 00:00:00.000000). -/
structure StrpAcc where
  y : Nat
  mo : Nat
  d : Nat
  h : Nat
  mi : Nat
  s : Nat
  us : Nat
deriving DecidableEq, Repr

/-- The default `strptime` accumulator. -/
def strpInit : StrpAcc := ⟨1900, 1, 1, 0, 0, 0, 0⟩

/-- One or two leading decimal digits, greedily.  CPython's directive
regexes backtrack, but in the eight formats used here every numeric
directive is followed by a non-digit (or the end), so the greedy reading is
equivalent. -/
def takeUpTo2Digits : List Char → Option (Nat × List Char)
  | [] => none
  | c1 :: rest1 =>
    match digitVal? c1 with
    | none => none
    | some a =>
      match rest1 with
      | c2 :: rest2 =>
        match digitVal? c2 with
        | some b => some (a * 10 + b, rest2)
        | none => some (a, rest1)
      | [] => some (a, [])

/-- Run a token list over the input, threading the accumulator.  Ranges
follow CPython's directive regexes (`%S` admits leap seconds 60 and 61,
rejected later by the `datetime` constructor; `%y` maps 00-68 to 2000-2068
and 69-99 to 1969-1999; `%f` is 1-6 digits right-padded to microseconds). -/
def runStrptime : List FmtTok → List Char → StrpAcc → Option StrpAcc
  | [], [], acc => some acc
  | [], _ :: _, _ => none
  | FmtTok.lit c :: ts, l, acc =>
    match expectChar c l with
    | none => none
    | some rest => runStrptime ts rest acc
  | FmtTok.ws :: ts, l, acc =>
    match l with
    | c :: rest =>
      if pyWhitespaceChar c then runStrptime ts (rest.dropWhile pyWhitespaceChar) acc
      else none
    | [] => none
  | FmtTok.dY :: ts, l, acc =>
    match take4Digits l with
    | none => none
    | some (v, rest) => runStrptime ts rest ⟨v, acc.mo, acc.d, acc.h, acc.mi, acc.s, acc.us⟩
  | FmtTok.dm :: ts, l, acc =>
    match takeUpTo2Digits l with
    | none => none
    | some (v, rest) =>
      if 1 ≤ v ∧ v ≤ 12 then
        runStrptime ts rest ⟨acc.y, v, acc.d, acc.h, acc.mi, acc.s, acc.us⟩
      else none
  | FmtTok.dd :: ts, l, acc =>
    match takeUpTo2Digits l with
    | none => none
    | some (v, rest) =>
      if 1 ≤ v ∧ v ≤ 31 then
        runStrptime ts rest ⟨acc.y, acc.mo, v, acc.h, acc.mi, acc.s, acc.us⟩
      else none
  | FmtTok.dH :: ts, l, acc =>
    match takeUpTo2Digits l with
    | none => none
    | some (v, rest) =>
      if v ≤ 23 then runStrptime ts rest ⟨acc.y, acc.mo, acc.d, v, acc.mi, acc.s, acc.us⟩
      else none
  | FmtTok.dM :: ts, l, acc =>
    match takeUpTo2Digits l with
    | none => none
    | some (v, rest) =>
      if v ≤ 59 then runStrptime ts rest ⟨acc.y, acc.mo, acc.d, acc.h, v, acc.s, acc.us⟩
      else none
  | FmtTok.dS :: ts, l, acc =>
    match takeUpTo2Digits l with
    | none => none
    | some (v, rest) =>
      if v ≤ 61 then runStrptime ts rest ⟨acc.y, acc.mo, acc.d, acc.h, acc.mi, v, acc.us⟩
      else none
  | FmtTok.dy :: ts, l, acc =>
    match take2Digits l with
    | none => none
    | some (v, rest) =>
      let yy := if v ≤ 68 then 2000 + v else 1900 + v
      runStrptime ts rest ⟨yy, acc.mo, acc.d, acc.h, acc.mi, acc.s, acc.us⟩
  | FmtTok.df :: ts, l, acc =>
    match takeDigitsUpTo 6 l with
    | ([], _) => none
    | (ds, rest) =>
      let us := digitsToNat ds * 10 ^ (6 - ds.length)
      runStrptime ts rest ⟨acc.y, acc.mo, acc.d, acc.h, acc.mi, acc.s, us⟩

/-- `_try_strptime`: match the whole string against one format; any failure
(including the `datetime` constructor's validation) yields `None`. -/
def _try_strptime (s : String) (fmt : String) : Option PyDatetime :=
  match parseFmtChars fmt.data with
  | none => none
  | some toks =>
    match runStrptime toks s.data strpInit with
    | none => none
    | some a => mkDatetime? a.y a.mo a.d a.h a.mi a.s a.us none

/-- The eight export formats tried in order by `parse_timestamp_to_utc_iso`. -/
def strptimeFormats : List String :=
  ["%Y-%m-%d %H:%M:%S",
   "%Y-%m-%d %H:%M",
   "%m/%d/%Y %H:%M:%S",
   "%m/%d/%Y %H:%M",
   "%m/%d/%y %H:%M:%S",
   "%m/%d/%y %H:%M",
   "%Y-%m-%dT%H:%M:%S",
   "%Y-%m-%dT%H:%M:%S.%f"]

/-- First format that matches, in order. -/
def firstStrptime (s : String) : List String → Option PyDatetime
  | [] => none
  | f :: fs =>
    match _try_strptime s f with
    | some dt => some dt
    | none => firstStrptime s fs

/-! ### `normalize.py`: conversion to UTC and ISO output -/

/-- Seconds since the epoch of a datetime's civil fields read as UTC. -/
def toEpochSecs (dt : PyDatetime) : Int :=
  daysFromCivil (Int.ofNat dt.year) dt.month dt.day * 86400
    + Int.ofNat (dt.hour * 3600 + dt.minute * 60 + dt.second)

/-- Civil fields (year, month, day, hour, minute, second) of an epoch-second
count. -/
def fromEpochSecs (t : Int) : Int × Nat × Nat × Nat × Nat × Nat :=
  let days := Int.ediv t 86400
  let sod := (Int.emod t 86400).toNat
  let c := civilFromDays days
  (c.1, c.2.1, c.2.2, sod / 3600, sod % 3600 / 60, sod % 60)

/-- Zero-padded two-digit decimal. -/
def pad2 (n : Nat) : String :=
  if n < 10 then "0" ++ Nat.repr n else Nat.repr n

/-- Zero-padded four-digit decimal. -/
def pad4 (n : Nat) : String :=
  if n < 10 then "000" ++ Nat.repr n
  else if n < 100 then "00" ++ Nat.repr n
  else if n < 1000 then "0" ++ Nat.repr n
  else Nat.repr n

/-- Zero-padded six-digit decimal. -/
def pad6 (n : Nat) : String :=
  if n < 10 then "00000" ++ Nat.repr n
  else if n < 100 then "0000" ++ Nat.repr n
  else if n < 1000 then "000" ++ Nat.repr n
  else if n < 10000 then "00" ++ Nat.repr n
  else if n < 100000 then "0" ++ Nat.repr n
  else Nat.repr n

/-- `datetime.isoformat()` of a UTC-aware datetime: fractional seconds
printed as six digits only when nonzero, offset rendered `+00:00`. -/
def isoformatUtc (y mo d h mi s us : Nat) : String :=
  pad4 y ++ "-" ++ pad2 mo ++ "-" ++ pad2 d ++ "T" ++ pad2 h ++ ":" ++ pad2 mi ++ ":" ++ pad2 s
    ++ (if us = 0 then "" else "." ++ pad6 us) ++ "+00:00"

/-- Python `s.replace(pat, rep)`: replace every non-overlapping occurrence
left to right.  Fuel equal to the input length suffices because every step
consumes at least one character (the pattern here is never empty). -/
def pyReplaceAux (pat rep : List Char) : Nat → List Char → List Char
  | _, [] => []
  | 0, l => l
  | fuel + 1, c :: rest =>
    if pat.isPrefixOf (c :: rest) then
      rep ++ pyReplaceAux pat rep fuel ((c :: rest).drop pat.length)
    else
      c :: pyReplaceAux pat rep fuel rest

/-- Python `s.replace(pat, rep)` on strings. -/
def pyReplace (s pat rep : String) : String :=
  ⟨pyReplaceAux pat.data rep.data s.data.length s.data⟩

/-- `parse_timestamp_to_utc_iso`: strip the input; `None` for an empty
string; try `_try_fromiso` then the eight `strptime` formats in order;
`None` when nothing matches.  A naive result is interpreted in the fallback
zone, an aware one uses its own offset; either way the value is converted to
UTC and rendered ISO-8601 with the trailing `+00:00` rewritten to `Z`.  The
fallback zone parameter is the resolved `ZoneInfo(assume_tz)` capability. -/
def parse_timestamp_to_utc_iso (ts_raw : String) (assumeTz : LocalZone) : Option String :=
  let s := pyStrip ts_raw
  if s = "" then none
  else
    let dt1 : Option PyDatetime :=
      match _try_fromiso s with
      | some dt => some dt
      | none => firstStrptime s strptimeFormats
    match dt1 with
    | none => none
    | some dt =>
      let offset : Int :=
        match dt.tzOffsetSecs with
        | some off => off
        | none => assumeTz dt
      let utcSecs := toEpochSecs dt - offset
      let c := fromEpochSecs utcSecs
      some (pyReplace
        (isoformatUtc c.1.toNat c.2.1 c.2.2.1 c.2.2.2.1 c.2.2.2.2.1 c.2.2.2.2.2 dt.microsecond)
        "+00:00" "Z")

/-- The value of the last physical column named `k` in a header/value row
pair (what `dict(zip(fieldnames, row))` stores under a duplicated name). -/
def lastDupValue (fns vs : List String) (k : String) : String :=
  match (fns.zip vs).reverse.find? (fun p => p.1 = k) with
  | some p => p.2
  | none => ""

/-- Decimal value of a digit-character list (used to reason about
`Nat.repr`). -/
def ofDigitChars (l : List Char) : Nat :=
  l.foldl (fun a c => a * 10 + (c.toNat - 48)) 0

/-! ### `normalize.py`: schema mapping and normalization -/

/-- Maps tool export columns to CHAT normalized fields; column names must
match the source headers exactly. -/
structure SchemaMapping where
  timestamp_col : String
  from_col : String
  to_col : String
  message_col : String
  uniqid_col : Option String
  thread_col : Option String
deriving DecidableEq, Repr

/-- Stable internal record for the rest of the pipeline. -/
structure NormalizedMessage where
  msg_id : String
  source_row : Nat
  ts_raw : String
  ts_utc : Option String
  sender : String
  recipient : String
  body : String
  thread_id : String
deriving DecidableEq, Repr

/-- `data.get(col, "")` on a row's dictionary. -/
def rowGet (row : IngestRow) (col : String) : String :=
  (dictGet? row.data col).getD ""

/-- `_clean_party`: strip, then collapse internal whitespace runs to single
spaces (`" ".join(s.split())`). -/
def _clean_party (v : String) : String :=
  joinSpace (pySplitWs (pyStrip v))

/-- Python truthiness of an optional column name (`if mapping.thread_col:`):
`None` and the empty string are falsy. -/
def optColTruthy : Option String → Bool
  | none => false
  | some c => c ≠ ""

/-- `normalize_row`: map one raw row into a `NormalizedMessage` using a
schema mapping and the fallback zone. -/
def normalize_row (row : IngestRow) (mapping : SchemaMapping) (assumeTz : LocalZone) :
    NormalizedMessage :=
  let ts_raw := pyStrip (rowGet row mapping.timestamp_col)
  let sender := _clean_party (rowGet row mapping.from_col)
  let recipient := _clean_party (rowGet row mapping.to_col)
  let body := pyStrip (rowGet row mapping.message_col)
  let thread_id :=
    match mapping.thread_col with
    | some c => if c ≠ "" then pyStrip (rowGet row c) else ""
    | none => ""
  let msg_id0 :=
    match mapping.uniqid_col with
    | some c => if c ≠ "" then pyStrip (rowGet row c) else ""
    | none => ""
  let msg_id :=
    if msg_id0 = "" then
      "ROW" ++ Nat.repr row.source_row ++ ":" ++ _stable_key ts_raw sender recipient
    else msg_id0
  ⟨msg_id, row.source_row, ts_raw, parse_timestamp_to_utc_iso ts_raw assumeTz,
    sender, recipient, body, thread_id⟩

/-! ## Helper lemmas -/

theorem fnv1aRun_eq_foldl : ∀ (l : List Nat) (a : Nat),
    fnv1aRun a l = List.foldl fnv1aStep a l
  | [], _ => rfl
  | _ :: bs, a => fnv1aRun_eq_foldl bs (fnv1aStep a _)

theorem fnv1aRun_lt : ∀ (l : List Nat) (a : Nat),
    a < 4294967296 → fnv1aRun a l < 4294967296
  | [], _, ha => ha
  | _ :: bs, _, _ => fnv1aRun_lt bs _ (Nat.mod_lt _ (by norm_num))

theorem row_prefixed_ne_empty (x y z : String) : "ROW" ++ x ++ y ++ z ≠ "" := by
  intro h
  have h2 := congrArg String.length h
  simp only [String.length_append] at h2
  rw [show ("ROW" : String).length = 3 from rfl] at h2
  rw [show ("" : String).length = 0 from rfl] at h2
  omega

theorem firstStrptime_eq_none (s : String) :
    ∀ fs : List String, (∀ f ∈ fs, _try_strptime s f = none) → firstStrptime s fs = none
  | [], _ => rfl
  | f :: fs, h => by
    have hf := h f (by simp)
    simp only [firstStrptime, hf]
    exact firstStrptime_eq_none s fs (fun g hg => h g (by simp [hg]))

theorem csvLoop_spec (fns : List String) :
    ∀ (rs : List (List String)) (idx seen emitted : Nat),
      (csvLoop fns idx seen emitted rs).2 = ⟨seen + rs.length, emitted + rs.length⟩
      ∧ ((csvLoop fns idx seen emitted rs).1.map (fun r => r.source_row))
          = List.range' idx rs.length
  | [], idx, seen, emitted => by simp [csvLoop, List.range']
  | r :: rs, idx, seen, emitted => by
    obtain ⟨h1, h2⟩ := csvLoop_spec fns rs (idx + 1) (seen + 1) (emitted + 1)
    simp only [csvLoop, List.map_cons, List.length_cons]
    constructor
    · rw [h1]
      simp only [IngestStats.mk.injEq]
      omega
    · rw [h2, List.range'_succ]

/-! ## Claims -/

/-- C2: the fallback-id hash function is exactly 32-bit FNV-1a: starting
from offset basis 2166136261, each UTF-8 byte is XORed into the accumulator,
which is then multiplied by the prime 16777619 and reduced modulo `2 ^ 32`;
the result is always below `2 ^ 32`. -/
theorem fnv1a_32_spec (s : String) :
    _fnv1a_32 s
        = List.foldl (fun h b => ((h ^^^ b) * 16777619) % 2 ^ 32) 2166136261 (utf8Bytes s)
      ∧ _fnv1a_32 s < 2 ^ 32 := by
  have h32 : (2 : Nat) ^ 32 = 4294967296 := by norm_num
  constructor
  · simp only [h32]
    exact fnv1aRun_eq_foldl (utf8Bytes s) 2166136261
  · simp only [h32]
    exact fnv1aRun_lt _ _ (by norm_num)

/-- C5: the timestamp `"2026-02-21 10:00:00"` with fallback zone
`America/New_York` parses to a present `ts_utc` that ends in `"Z"` and
denotes 2026-02-21T15:00:00Z (EST is UTC-5, no daylight saving in
February). -/
theorem timestamp_feb_roundtrip :
    parse_timestamp_to_utc_iso "2026-02-21 10:00:00" americaNewYork
        = some "2026-02-21T15:00:00Z"
    ∧ pyEndsWith "2026-02-21T15:00:00Z" "Z" = true :=
  ⟨by decide, by decide⟩

/-- C6: timestamp canonicalization never errors on bad data: an empty
string (after trimming) yields an absent value, and so does every string
matched by neither the ISO parse nor any of the eight export patterns. -/
theorem timestamp_unparseable_absent (ts : String) (tz : LocalZone) :
    (pyStrip ts = "" → parse_timestamp_to_utc_iso ts tz = none)
    ∧ (_try_fromiso (pyStrip ts) = none →
        (∀ f ∈ strptimeFormats, _try_strptime (pyStrip ts) f = none) →
        parse_timestamp_to_utc_iso ts tz = none) := by
  constructor
  · intro h
    simp [parse_timestamp_to_utc_iso, h]
  · intro h1 h2
    have h3 := firstStrptime_eq_none (pyStrip ts) strptimeFormats h2
    by_cases he : pyStrip ts = ""
    · simp [parse_timestamp_to_utc_iso, he]
    · simp [parse_timestamp_to_utc_iso, he, h1, h3]

theorem timestamp_unparseable_absent_witness :
    parse_timestamp_to_utc_iso "not a timestamp" americaNewYork = none
    ∧ parse_timestamp_to_utc_iso "  " americaNewYork = none := by
  constructor
  · exact (timestamp_unparseable_absent "not a timestamp" americaNewYork).2
      (by decide) (by decide)
  · exact (timestamp_unparseable_absent "  " americaNewYork).1 (by decide)

/-- C7: an unrecognized extension fails stream construction synchronously
with a configuration error naming the extension; the recognized extensions
are classified into exactly one of the two reader strategies. -/
theorem extension_dispatch (path : String) :
    (¬ (pyLower (pathSuffix path) = ".csv" ∨ pyLower (pathSuffix path) = ".xlsx"
          ∨ pyLower (pathSuffix path) = ".xlsm") →
        iter_rows_auto path
          = Except.error ("Unsupported input type: " ++ pyLower (pathSuffix path)))
    ∧ (pyLower (pathSuffix path) = ".csv" → iter_rows_auto path = Except.ok ReaderKind.csv)
    ∧ ((pyLower (pathSuffix path) = ".xlsx" ∨ pyLower (pathSuffix path) = ".xlsm") →
        iter_rows_auto path = Except.ok ReaderKind.xlsx) := by
  refine ⟨fun h => ?_, fun h => ?_, fun h => ?_⟩
  · have h1 : ¬ pyLower (pathSuffix path) = ".csv" := fun hc => h (Or.inl hc)
    have h2 : ¬ (pyLower (pathSuffix path) = ".xlsx" ∨ pyLower (pathSuffix path) = ".xlsm") :=
      fun hc => h (Or.inr hc)
    simp [iter_rows_auto, sniff_input_type, h1, h2]
  · simp [iter_rows_auto, sniff_input_type, h]
  · rcases h with h | h
    · have h1 : ¬ pyLower (pathSuffix path) = ".csv" := by rw [h]; decide
      simp [iter_rows_auto, sniff_input_type, h1, h]
    · have h1 : ¬ pyLower (pathSuffix path) = ".csv" := by rw [h]; decide
      simp [iter_rows_auto, sniff_input_type, h1, h]

theorem extension_dispatch_witness :
    iter_rows_auto "notes.txt" = Except.error "Unsupported input type: .txt"
    ∧ iter_rows_auto "msgs.csv" = Except.ok ReaderKind.csv
    ∧ iter_rows_auto "Book.XLSX" = Except.ok ReaderKind.xlsx := by
  refine ⟨?_, ?_, ?_⟩
  · have h := (extension_dispatch "notes.txt").1 (by decide)
    rw [h]
    rfl
  · exact (extension_dispatch "msgs.csv").2.1 (by decide)
  · exact (extension_dispatch "Book.XLSX").2.2 (Or.inl (by decide))

/-- C8: for well-formed delimited input (a header and N nonempty data
lines), `rows_seen = rows_emitted = N` and the emitted `source_row` values
are exactly 1..N in file order. -/
theorem csv_rows_stats (fns : List String) (rows : List (List String))
    (hw : ∀ r ∈ rows, r ≠ []) :
    (iter_csv_rows (some fns) rows).2.rows_seen = rows.length
    ∧ (iter_csv_rows (some fns) rows).2.rows_emitted = rows.length
    ∧ ((iter_csv_rows (some fns) rows).1.map (fun r => r.source_row))
        = List.range' 1 rows.length := by
  have hf : rows.filter (fun r => r ≠ []) = rows :=
    List.filter_eq_self.mpr (by intro a ha; simpa using hw a ha)
  obtain ⟨h1, h2⟩ := csvLoop_spec fns rows 1 0 0
  simp only [iter_csv_rows, hf]
  rw [h1]
  exact ⟨by simp, by simp, h2⟩

theorem csv_rows_stats_witness :
    (∀ r ∈ ([["1", "2"], ["3"]] : List (List String)), r ≠ [])
    ∧ (iter_csv_rows (some ["a", "b"]) [["1", "2"], ["3"]]).2.rows_seen = 2
    ∧ (iter_csv_rows (some ["a", "b"]) [["1", "2"], ["3"]]).2.rows_emitted = 2
    ∧ ((iter_csv_rows (some ["a", "b"]) [["1", "2"], ["3"]]).1.map (fun r => r.source_row))
        = [1, 2] := by
  refine ⟨by decide, ?_, ?_, ?_⟩
  · exact (csv_rows_stats ["a", "b"] [["1", "2"], ["3"]] (by decide)).1
  · exact (csv_rows_stats ["a", "b"] [["1", "2"], ["3"]] (by decide)).2.1
  · have h := (csv_rows_stats ["a", "b"] [["1", "2"], ["3"]] (by decide)).2.2
    rw [h]
    rfl

/-- C9: `ts_raw` equals, character for character, the value stored under
the mapped timestamp column of the raw record (the empty string when that
column is missing); raw records carry trimmed values, per the data model. -/
theorem ts_raw_exact (row : IngestRow) (mapping : SchemaMapping) (tz : LocalZone)
    (htrim : ∀ p ∈ row.data, pyStrip p.2 = p.2) :
    (normalize_row row mapping tz).ts_raw
      = (dictGet? row.data mapping.timestamp_col).getD "" := by
  show pyStrip (rowGet row mapping.timestamp_col) = _
  rw [rowGet]
  cases hfind : dictGet? row.data mapping.timestamp_col with
  | none => rfl
  | some v =>
    have hv : ∃ p, row.data.find? (fun p => p.1 = mapping.timestamp_col) = some p ∧ p.2 = v := by
      unfold dictGet? at hfind
      exact Option.map_eq_some'.mp hfind
    obtain ⟨p, hp, hpv⟩ := hv
    have hmem := List.mem_of_find?_eq_some hp
    simp only [Option.getD_some]
    rw [← hpv]
    exact htrim p hmem

theorem ts_raw_exact_witness :
    (∀ p ∈ ([("timestamp", "2026-02-21 10:00:00"), ("from", "Alice")] : List (String × String)),
        pyStrip p.2 = p.2)
    ∧ (normalize_row ⟨[("timestamp", "2026-02-21 10:00:00"), ("from", "Alice")], 1⟩
          ⟨"timestamp", "from", "to", "message", none, none⟩ americaNewYork).ts_raw
        = "2026-02-21 10:00:00" := by
  refine ⟨by decide, ?_⟩
  have h := ts_raw_exact ⟨[("timestamp", "2026-02-21 10:00:00"), ("from", "Alice")], 1⟩
      ⟨"timestamp", "from", "to", "message", none, none⟩ americaNewYork (by decide)
  rw [h]
  decide

/-- C10: the produced message always has a non-empty `msg_id`: either the
verbatim non-blank unique-id value, or the synthesized
`ROW<source_row>:<hash>` form. -/
theorem msg_id_nonempty (row : IngestRow) (mapping : SchemaMapping) (tz : LocalZone) :
    (normalize_row row mapping tz).msg_id ≠ "" := by
  simp only [normalize_row]
  split
  · exact row_prefixed_ne_empty _ _ _
  · assumption

theorem msg_id_nonempty_witness :
    (normalize_row ⟨[], 1⟩ ⟨"timestamp", "from", "to", "message", none, none⟩
        americaNewYork).msg_id ≠ "" :=
  msg_id_nonempty ⟨[], 1⟩ ⟨"timestamp", "from", "to", "message", none, none⟩ americaNewYork

/-- C1: `msg_id` is the verbatim trimmed unique-id value when a unique-id
column is configured and its value is non-empty after trimming; otherwise it
is exactly `"ROW" ++ source_row ++ ":"` followed by the decimal 32-bit
FNV-1a hash of the pipe-joined `ts_raw|sender|recipient` (cleaned
sender/recipient, raw unparsed timestamp). -/
theorem msg_id_explicit_or_hash (row : IngestRow) (mapping : SchemaMapping) (tz : LocalZone) :
    (∀ c, mapping.uniqid_col = some c → c ≠ "" → pyStrip (rowGet row c) ≠ "" →
        (normalize_row row mapping tz).msg_id = pyStrip (rowGet row c))
    ∧ ((mapping.uniqid_col = none
          ∨ ∃ c, mapping.uniqid_col = some c ∧ (c = "" ∨ pyStrip (rowGet row c) = "")) →
        (normalize_row row mapping tz).msg_id
          = "ROW" ++ Nat.repr row.source_row ++ ":"
              ++ Nat.repr (_fnv1a_32 ((normalize_row row mapping tz).ts_raw ++ "|"
                ++ (normalize_row row mapping tz).sender ++ "|"
                ++ (normalize_row row mapping tz).recipient))) := by
  constructor
  · intro c hc hcne hvne
    simp only [normalize_row, hc]
    rw [if_pos hcne, if_neg hvne]
  · intro hfall
    rcases hfall with hnone | ⟨c, hc, hcase⟩
    · simp only [normalize_row, hnone, if_true]
      rfl
    · have hblank : ∀ hcase2 : c = "" ∨ pyStrip (rowGet row c) = "",
          (if c ≠ "" then pyStrip (rowGet row c) else "") = "" := by
        intro hcase2
        by_cases hcne : c = ""
        · simp [hcne]
        · rw [if_pos hcne]
          rcases hcase2 with h | h
          · exact absurd h hcne
          · exact h
      simp only [normalize_row, hc]
      rw [hblank hcase, if_pos rfl]
      rfl

theorem msg_id_explicit_or_hash_witness :
    (normalize_row ⟨[("uid", "abc"), ("timestamp", "t")], 1⟩
          ⟨"timestamp", "from", "to", "message", some "uid", none⟩ americaNewYork).msg_id
        = "abc"
    ∧ (normalize_row ⟨[("timestamp", "2026-02-21 10:00:00"), ("from", "Alice"), ("to", "Bob")], 1⟩
          ⟨"timestamp", "from", "to", "message", none, none⟩ americaNewYork).msg_id
        = "ROW1:574490920" := by
  constructor
  · have h := (msg_id_explicit_or_hash ⟨[("uid", "abc"), ("timestamp", "t")], 1⟩
        ⟨"timestamp", "from", "to", "message", some "uid", none⟩ americaNewYork).1
        "uid" rfl (by decide) (by decide)
    rw [h]
    decide
  · have h := (msg_id_explicit_or_hash
        ⟨[("timestamp", "2026-02-21 10:00:00"), ("from", "Alice"), ("to", "Bob")], 1⟩
        ⟨"timestamp", "from", "to", "message", none, none⟩ americaNewYork).2 (Or.inl rfl)
    rw [h]
    decide

/-! ## Decimal-representation lemmas

Facts about `Nat.repr` (used by the `f"{base}_{count}"` suffixes and the
decimal hash string): its digits contain no underscore, and it is
injective. -/

theorem toDigitsCore_acc (fuel : Nat) :
    ∀ (n : Nat) (ds : List Char),
      Nat.toDigitsCore 10 fuel n ds = Nat.toDigitsCore 10 fuel n [] ++ ds := by
  induction fuel with
  | zero => intro n ds; simp [Nat.toDigitsCore]
  | succ f ih =>
    intro n ds
    simp only [Nat.toDigitsCore]
    by_cases h : n / 10 = 0
    · simp [h]
    · simp only [h, if_false]
      rw [ih (n / 10) (Nat.digitChar (n % 10) :: ds), ih (n / 10) [Nat.digitChar (n % 10)]]
      simp

theorem toDigitsCore_fuel (n : Nat) :
    ∀ (f1 f2 : Nat), n < f1 → n < f2 →
      Nat.toDigitsCore 10 f1 n [] = Nat.toDigitsCore 10 f2 n [] := by
  induction n using Nat.strong_induction_on with
  | _ n ih =>
    intro f1 f2 h1 h2
    cases f1 with
    | zero => omega
    | succ f1 =>
      cases f2 with
      | zero => omega
      | succ f2 =>
        simp only [Nat.toDigitsCore]
        by_cases h : n / 10 = 0
        · simp [h]
        · simp only [h, if_false]
          have hn10 : n / 10 < n := Nat.div_lt_self (by omega) (by norm_num)
          rw [toDigitsCore_acc f1, toDigitsCore_acc f2]
          rw [ih (n / 10) hn10 f1 f2 (by omega) (by omega)]

theorem toDigits_eq_digitChar (n : Nat) (h : n < 10) :
    Nat.toDigits 10 n = [Nat.digitChar n] := by
  show Nat.toDigitsCore 10 (n + 1) n [] = _
  simp only [Nat.toDigitsCore]
  rw [Nat.div_eq_of_lt h, Nat.mod_eq_of_lt h]
  simp

theorem toDigits_step (n : Nat) (h : 10 ≤ n) :
    Nat.toDigits 10 n = Nat.toDigits 10 (n / 10) ++ [Nat.digitChar (n % 10)] := by
  have hne : ¬ n / 10 = 0 := by
    have := Nat.div_pos h (by norm_num)
    omega
  show Nat.toDigitsCore 10 (n + 1) n [] = _
  simp only [Nat.toDigitsCore, hne, if_false]
  rw [toDigitsCore_acc n (n / 10) [Nat.digitChar (n % 10)]]
  rw [toDigitsCore_fuel (n / 10) n (n / 10 + 1)
    (Nat.div_lt_self (by omega) (by norm_num)) (Nat.lt_succ_self _)]
  rfl

theorem ofDigitChars_append (l : List Char) (c : Char) :
    ofDigitChars (l ++ [c]) = ofDigitChars l * 10 + (c.toNat - 48) := by
  simp [ofDigitChars, List.foldl_append]

theorem digitChar_sub (d : Nat) (h : d < 10) : (Nat.digitChar d).toNat - 48 = d := by
  interval_cases d <;> rfl

theorem ofDigitChars_toDigits (n : Nat) : ofDigitChars (Nat.toDigits 10 n) = n := by
  induction n using Nat.strong_induction_on with
  | _ n ih =>
    by_cases h : n < 10
    · rw [toDigits_eq_digitChar n h]
      show 0 * 10 + ((Nat.digitChar n).toNat - 48) = n
      rw [digitChar_sub n h]
      omega
    · push_neg at h
      rw [toDigits_step n h, ofDigitChars_append,
        ih (n / 10) (Nat.div_lt_self (by omega) (by norm_num)),
        digitChar_sub (n % 10) (Nat.mod_lt _ (by norm_num))]
      omega

theorem nat_repr_inj {m n : Nat} (h : Nat.repr m = Nat.repr n) : m = n := by
  have h2 : Nat.toDigits 10 m = Nat.toDigits 10 n := by
    have h3 := congrArg String.data h
    simpa [Nat.repr, List.asString] using h3
  have h4 := congrArg ofDigitChars h2
  rwa [ofDigitChars_toDigits, ofDigitChars_toDigits] at h4

theorem toDigits_chars (n : Nat) :
    ∀ c ∈ Nat.toDigits 10 n, ∃ d, d < 10 ∧ c = Nat.digitChar d := by
  induction n using Nat.strong_induction_on with
  | _ n ih =>
    intro c hc
    by_cases h : n < 10
    · rw [toDigits_eq_digitChar n h] at hc
      simp only [List.mem_singleton] at hc
      exact ⟨n, h, hc⟩
    · push_neg at h
      rw [toDigits_step n h] at hc
      rcases List.mem_append.mp hc with hc | hc
      · exact ih (n / 10) (Nat.div_lt_self (by omega) (by norm_num)) c hc
      · simp only [List.mem_singleton] at hc
        exact ⟨n % 10, Nat.mod_lt _ (by norm_num), hc⟩

theorem underscore_not_in_repr (n : Nat) : '_' ∉ (Nat.repr n).data := by
  intro hmem
  have hdata : (Nat.repr n).data = Nat.toDigits 10 n := by
    simp [Nat.repr, List.asString]
  rw [hdata] at hmem
  obtain ⟨d, hd, hc⟩ := toDigits_chars n '_' hmem
  interval_cases d <;> exact absurd hc (by decide)

/-! ## Splitting a string at its underscore marker -/

theorem splitAtFirstMark (l1 : List Char) :
    ∀ (l2 r1 r2 : List Char), l1 ++ '_' :: r1 = l2 ++ '_' :: r2 →
      '_' ∉ l1 → '_' ∉ l2 → l1 = l2 ∧ r1 = r2 := by
  induction l1 with
  | nil =>
    intro l2 r1 r2 heq h1 h2
    cases l2 with
    | nil => simpa using heq
    | cons b bs =>
      simp only [List.nil_append, List.cons_append, List.cons.injEq] at heq
      exact absurd (by rw [← heq.1]; exact List.mem_cons_self _ _) h2
  | cons a as ih =>
    intro l2 r1 r2 heq h1 h2
    cases l2 with
    | nil =>
      simp only [List.nil_append, List.cons_append, List.cons.injEq] at heq
      exact absurd (by rw [← heq.1]; exact List.mem_cons_self _ _) h1
    | cons b bs =>
      simp only [List.cons_append, List.cons.injEq] at heq
      obtain ⟨hab, htail⟩ := heq
      have h1' : '_' ∉ as := fun hm => h1 (List.mem_cons_of_mem _ hm)
      have h2' : '_' ∉ bs := fun hm => h2 (List.mem_cons_of_mem _ hm)
      obtain ⟨hl, hr⟩ := ih bs r1 r2 htail h1' h2'
      exact ⟨by rw [hab, hl], hr⟩

theorem suffix_append_inj {b c : String} {j k : Nat}
    (heq : b ++ "_" ++ Nat.repr j = c ++ "_" ++ Nat.repr k) : b = c ∧ j = k := by
  have hd := congrArg String.data heq
  simp only [String.data_append] at hd
  have hrev : (Nat.repr j).data.reverse ++ '_' :: b.data.reverse
      = (Nat.repr k).data.reverse ++ '_' :: c.data.reverse := by
    have h5 := congrArg List.reverse hd
    simpa [List.reverse_append, List.append_assoc] using h5
  have hj : '_' ∉ (Nat.repr j).data.reverse := by
    intro hm
    exact underscore_not_in_repr j (List.mem_reverse.mp hm)
  have hk : '_' ∉ (Nat.repr k).data.reverse := by
    intro hm
    exact underscore_not_in_repr k (List.mem_reverse.mp hm)
  obtain ⟨h1, h2⟩ := splitAtFirstMark _ _ _ _ hrev hj hk
  constructor
  · apply String.ext
    have h3 := congrArg List.reverse h2
    simpa using h3
  · apply nat_repr_inj
    apply String.ext
    have h3 := congrArg List.reverse h1
    simpa using h3

/-! ## Header-deduplication lemmas -/

theorem dedupeName_inj {b c : String} {j k : Nat} (hj : 1 ≤ j) (hk : 1 ≤ k)
    (hbc : ∀ n, 2 ≤ n → b ≠ c ++ "_" ++ Nat.repr n)
    (hcb : ∀ n, 2 ≤ n → c ≠ b ++ "_" ++ Nat.repr n)
    (heq : dedupeName b j = dedupeName c k) : b = c ∧ j = k := by
  unfold dedupeName at heq
  by_cases h1 : j = 1
  · by_cases h2 : k = 1
    · rw [if_pos h1, if_pos h2] at heq
      exact ⟨heq, by omega⟩
    · rw [if_pos h1, if_neg h2] at heq
      exact absurd heq (hbc k (by omega))
  · by_cases h2 : k = 1
    · rw [if_neg h1, if_pos h2] at heq
      exact absurd heq.symm (hcb j (by omega))
    · rw [if_neg h1, if_neg h2] at heq
      exact suffix_append_inj heq

theorem dedupeHeadersAux_mem :
    ∀ (hs : List String) (seen : String → Nat) (x : String),
      x ∈ dedupeHeadersAux hs seen →
      ∃ b k, b ∈ hs.map dedupeBase ∧ seen b + 1 ≤ k ∧ x = dedupeName b k := by
  intro hs
  induction hs with
  | nil => intro seen x hx; simp [dedupeHeadersAux] at hx
  | cons h t ih =>
    intro seen x hx
    simp only [dedupeHeadersAux, List.mem_cons] at hx
    rcases hx with hx | hx
    · exact ⟨dedupeBase h, seen (dedupeBase h) + 1, by simp, Nat.le_refl _, hx⟩
    · obtain ⟨b, k, hb, hk, hxe⟩ := ih _ x hx
      refine ⟨b, k, ?_, ?_, hxe⟩
      · simp only [List.map_cons, List.mem_cons]
        exact Or.inr hb
      · by_cases hbb : b = dedupeBase h
        · rw [if_pos hbb] at hk
          rw [hbb]
          omega
        · rwa [if_neg hbb] at hk

theorem dedupeHeadersAux_nodup :
    ∀ (hs : List String) (seen : String → Nat),
      (∀ b ∈ hs.map dedupeBase, ∀ c ∈ hs.map dedupeBase, ∀ n, 2 ≤ n →
          b ≠ c ++ "_" ++ Nat.repr n) →
      (dedupeHeadersAux hs seen).Nodup := by
  intro hs
  induction hs with
  | nil => intro seen H; simp [dedupeHeadersAux]
  | cons h t ih =>
    intro seen H
    have Hsub : ∀ b ∈ t.map dedupeBase, ∀ c ∈ t.map dedupeBase, ∀ n, 2 ≤ n →
        b ≠ c ++ "_" ++ Nat.repr n := by
      intro b hb c hc
      exact H b (by simp only [List.map_cons, List.mem_cons]; exact Or.inr hb)
        c (by simp only [List.map_cons, List.mem_cons]; exact Or.inr hc)
    simp only [dedupeHeadersAux]
    refine List.nodup_cons.mpr ⟨?_, ih _ Hsub⟩
    intro hmem
    obtain ⟨b, k, hb, hk, hxe⟩ := dedupeHeadersAux_mem t _ _ hmem
    have hbmem : b ∈ (h :: t).map dedupeBase := by
      simp only [List.map_cons, List.mem_cons]
      exact Or.inr hb
    have hhead : dedupeBase h ∈ (h :: t).map dedupeBase := by
      simp [List.map_cons]
    obtain ⟨hbe, hke⟩ := dedupeName_inj (by omega) (by omega)
      (fun n hn => H (dedupeBase h) hhead b hbmem n hn)
      (fun n hn => H b hbmem (dedupeBase h) hhead n hn) hxe
    rw [← hbe, if_pos rfl] at hk
    omega

theorem dedupeHeadersAux_length :
    ∀ (hs : List String) (seen : String → Nat),
      (dedupeHeadersAux hs seen).length = hs.length
  | [], _ => rfl
  | h :: t, seen => by
    simp [dedupeHeadersAux, dedupeHeadersAux_length t]

theorem underscore_free_no_clash (headers : List String)
    (hfree : ∀ b ∈ headers.map dedupeBase, '_' ∉ b.data) :
    ∀ b ∈ headers.map dedupeBase, ∀ c ∈ headers.map dedupeBase,
      ∀ n, 2 ≤ n → b ≠ c ++ "_" ++ Nat.repr n := by
  intro b hb c _ n _ heq
  apply hfree b hb
  rw [heq]
  simp [String.data_append]

/-- C4 counterexample: the deduplication step is not collision-free for
every input; headers `["A", "A_2", "A"]` map to `["A", "A_2", "A_2"]`,
which contains a duplicate. -/
theorem dedupe_headers_collision :
    ¬ (_dedupe_headers ["A", "A_2", "A"]).Nodup
    ∧ _dedupe_headers ["A", "A_2", "A"] = ["A", "A_2", "A_2"] :=
  ⟨by decide, by decide⟩

/-- C4 amended: the deduplication step always returns a list of the same
length, and its entries are pairwise distinct for every input in which no
(blank-replaced) header name has the form of another (blank-replaced) header
name followed by an underscore and the decimal representation of a counter
of at least 2. -/
theorem dedupe_headers_len_nodup (headers : List String) :
    (_dedupe_headers headers).length = headers.length
    ∧ ((∀ b ∈ headers.map dedupeBase, ∀ c ∈ headers.map dedupeBase,
          ∀ n, 2 ≤ n → b ≠ c ++ "_" ++ Nat.repr n) →
        (_dedupe_headers headers).Nodup) :=
  ⟨dedupeHeadersAux_length headers _, fun H => dedupeHeadersAux_nodup headers _ H⟩

theorem dedupe_headers_len_nodup_witness :
    (∀ b ∈ ["Message", "Message", "X"].map dedupeBase,
        ∀ c ∈ ["Message", "Message", "X"].map dedupeBase,
        ∀ n, 2 ≤ n → b ≠ c ++ "_" ++ Nat.repr n)
    ∧ (_dedupe_headers ["Message", "Message", "X"]).length = 3
    ∧ (_dedupe_headers ["Message", "Message", "X"]).Nodup := by
  have H := underscore_free_no_clash ["Message", "Message", "X"] (by decide)
  exact ⟨H, ((dedupe_headers_len_nodup ["Message", "Message", "X"]).1).trans (by decide),
    (dedupe_headers_len_nodup ["Message", "Message", "X"]).2 H⟩

/-! ## Dictionary lemmas for the CSV record construction -/

theorem dictKeys_dictSet {α : Type} (d : List (String × α)) (k : String) (v : α) :
    dictKeys (dictSet d k v) = if k ∈ dictKeys d then dictKeys d else dictKeys d ++ [k] := by
  induction d with
  | nil => simp [dictSet, dictKeys]
  | cons p rest ih =>
    obtain ⟨k0, v0⟩ := p
    simp only [dictSet]
    by_cases h : k0 = k
    · subst h
      simp [dictKeys]
    · rw [if_neg h]
      simp only [dictKeys, List.map_cons] at ih ⊢
      rw [ih]
      by_cases hm : k ∈ List.map (fun p => p.1) rest
      · simp [hm, Ne.symm h]
      · simp [hm, Ne.symm h]

theorem foldl_dictSet_keys {α : Type} (f : String → α) :
    ∀ (ks : List String) (d : List (String × α)),
      dictKeys (ks.foldl (fun d k => dictSet d k (f k)) d)
        = ks.foldl (fun acc k => if k ∈ acc then acc else acc ++ [k]) (dictKeys d)
  | [], _ => rfl
  | k :: t, d => by
    simp only [List.foldl_cons]
    rw [foldl_dictSet_keys f t, dictKeys_dictSet]

theorem csvCleanedRow_keys (fns vs : List String) :
    dictKeys (csvCleanedRow fns vs) = pyDistinct fns :=
  foldl_dictSet_keys
    (fun k => _safe_str ((dictGet? (dictReaderRow fns vs) k).getD none)) fns []

theorem dictGet?_dictSet {α : Type} (d : List (String × α)) (k k2 : String) (v : α) :
    dictGet? (dictSet d k v) k2 = if k2 = k then some v else dictGet? d k2 := by
  induction d with
  | nil =>
    by_cases h : k2 = k
    · subst h
      simp [dictSet, dictGet?]
    · simp [dictSet, dictGet?, h, Ne.symm h]
  | cons p rest ih =>
    obtain ⟨k0, v0⟩ := p
    simp only [dictSet]
    by_cases h0 : k0 = k
    · subst h0
      by_cases h : k2 = k0
      · subst h
        simp [dictGet?]
      · simp [dictGet?, h, Ne.symm h]
    · rw [if_neg h0]
      by_cases h : k2 = k0
      · subst h
        simp [dictGet?, h0]
      · simp only [dictGet?] at ih ⊢
        rw [List.find?_cons_of_neg _ (by simp [Ne.symm h]),
          List.find?_cons_of_neg _ (by simp [Ne.symm h])]
        exact ih

theorem dictGet?_foldl_pairs {α : Type} :
    ∀ (ps : List (String × α)) (d : List (String × α)) (k : String),
      dictGet? (ps.foldl (fun d p => dictSet d p.1 p.2) d) k
        = ((ps.reverse.find? (fun p => p.1 = k)).map (fun p => p.2)).or (dictGet? d k)
  | [], _, _ => rfl
  | p :: t, d, k => by
    simp only [List.foldl_cons, List.reverse_cons]
    rw [dictGet?_foldl_pairs t (dictSet d p.1 p.2) k]
    rw [List.find?_append]
    cases hf : t.reverse.find? (fun q => q.1 = k) with
    | some q => simp [hf]
    | none =>
      rw [dictGet?_dictSet]
      by_cases hk : p.1 = k
      · simp [hf, hk]
      · simp [hf, hk, Ne.symm hk]

theorem find?_eq_self_of_mem (k : String) :
    ∀ l : List String, k ∈ l → l.find? (fun x => x = k) = some k
  | [], hm => absurd hm (List.not_mem_nil k)
  | x :: l, hm => by
    by_cases h : x = k
    · rw [List.find?_cons_of_pos _ (by simp [h]), h]
    · have hmem : k ∈ l := by
        rcases List.mem_cons.mp hm with h1 | h1
        · exact absurd h1.symm h
        · exact h1
      rw [List.find?_cons_of_neg _ (by simp [h])]
      exact find?_eq_self_of_mem k l hmem

theorem find?_map_pairs {α : Type} (f : String → α) (k : String) :
    ∀ l : List String,
      (l.map (fun x => (x, f x))).find? (fun p => p.1 = k)
        = (l.find? (fun x => x = k)).map (fun x => (x, f x))
  | [] => rfl
  | x :: l => by
    by_cases h : x = k
    · rw [List.map_cons, List.find?_cons_of_pos _ (by simp [h]),
        List.find?_cons_of_pos _ (by simp [h])]
      rfl
    · rw [List.map_cons, List.find?_cons_of_neg _ (by simp [h]),
        List.find?_cons_of_neg _ (by simp [h])]
      exact find?_map_pairs f k l

theorem find?_map_second {α β : Type} (g : α → β) (k : String) :
    ∀ l : List (String × α),
      (l.map (fun p => (p.1, g p.2))).find? (fun p => p.1 = k)
        = (l.find? (fun p => p.1 = k)).map (fun p => (p.1, g p.2))
  | [] => rfl
  | p :: l => by
    by_cases h : p.1 = k
    · rw [List.map_cons, List.find?_cons_of_pos _ (by simp [h]),
        List.find?_cons_of_pos _ (by simp [h])]
      rfl
    · rw [List.map_cons, List.find?_cons_of_neg _ (by simp [h]),
        List.find?_cons_of_neg _ (by simp [h])]
      exact find?_map_second g k l

theorem csvCleanedRow_get (fns vs : List String) (k : String) (hk : k ∈ fns) :
    dictGet? (csvCleanedRow fns vs) k
      = some (_safe_str ((dictGet? (dictReaderRow fns vs) k).getD none)) := by
  have hrw : List.foldl
      (fun d x => dictSet d x (_safe_str ((dictGet? (dictReaderRow fns vs) x).getD none)))
      [] fns
      = ((fns.map (fun x =>
          (x, _safe_str ((dictGet? (dictReaderRow fns vs) x).getD none)))).foldl
          (fun d p => dictSet d p.1 p.2) []) := by
    rw [List.foldl_map]
  unfold csvCleanedRow
  rw [hrw, dictGet?_foldl_pairs]
  rw [show (fns.map (fun x =>
        (x, _safe_str ((dictGet? (dictReaderRow fns vs) x).getD none)))).reverse
      = fns.reverse.map (fun x =>
        (x, _safe_str ((dictGet? (dictReaderRow fns vs) x).getD none)))
    from (List.map_reverse _ _).symm]
  rw [find?_map_pairs, find?_eq_self_of_mem k fns.reverse (List.mem_reverse.mpr hk)]
  rfl

theorem dictReaderRow_get_of_len (fns vs : List String) (hlen : vs.length = fns.length)
    (k : String) (hk : k ∈ fns) :
    dictGet? (dictReaderRow fns vs) k = some (some (lastDupValue fns vs k)) := by
  unfold dictReaderRow
  rw [hlen, List.drop_length]
  simp only [List.foldl_nil]
  have hrw : (fns.zip vs).foldl (fun d p => dictSet d p.1 (some p.2)) []
      = ((fns.zip vs).map (fun p => (p.1, some p.2))).foldl
          (fun d p => dictSet d p.1 p.2) [] := by
    rw [List.foldl_map]
  rw [hrw, dictGet?_foldl_pairs]
  rw [show ((fns.zip vs).map (fun p => (p.1, some p.2))).reverse
      = (fns.zip vs).reverse.map (fun p => (p.1, some p.2))
    from (List.map_reverse _ _).symm]
  rw [find?_map_second]
  cases hf : (fns.zip vs).reverse.find? (fun p => p.1 = k) with
  | none =>
    exfalso
    have hall := List.find?_eq_none.mp hf
    have hkz : k ∈ (fns.zip vs).map Prod.fst := by
      rw [List.map_fst_zip fns vs (by omega)]
      exact hk
    obtain ⟨q, hq, hq1⟩ := List.mem_map.mp hkz
    exact hall q (List.mem_reverse.mpr hq) (by simp [hq1])
  | some q =>
    simp [lastDupValue, hf]

/-- C3 counterexample: the CSV reader does not apply the duplicate-header
policy; for headers Message, Message, X the emitted record has keys
Message, X only (not Message, Message_2, X), and the first duplicate
column's value is lost. -/
theorem csv_duplicate_header_counterexample :
    dictKeys (csvCleanedRow ["Message", "Message", "X"] ["a", "b", "c"])
        ≠ _dedupe_headers ["Message", "Message", "X"]
    ∧ csvCleanedRow ["Message", "Message", "X"] ["a", "b", "c"]
        = [("Message", "b"), ("X", "c")] :=
  ⟨by decide, by decide⟩

/-- C3 amended: only the spreadsheet reader applies the shared
duplicate-header policy.  The CSV reader emits one key per distinct header
name, in first-occurrence order; the value stored under a repeated name is
the trimmed value of its last physical column, so earlier duplicates'
values are not preserved.  The spreadsheet variant, by contrast,
deduplicates headers first and keeps every column's value. -/
theorem csv_duplicate_header_behavior (fns vs : List String) :
    dictKeys (csvCleanedRow fns vs) = pyDistinct fns
    ∧ (vs.length = fns.length → ∀ k ∈ fns,
        dictGet? (csvCleanedRow fns vs) k = some (pyStrip (lastDupValue fns vs k)))
    ∧ xlsxRowData (_dedupe_headers ["Message", "Message", "X"]) [some "a", some "b", some "c"]
        = [("Message", "a"), ("Message_2", "b"), ("X", "c")] := by
  refine ⟨csvCleanedRow_keys fns vs, fun hlen k hk => ?_, by decide⟩
  rw [csvCleanedRow_get fns vs k hk, dictReaderRow_get_of_len fns vs hlen k hk]
  rfl

theorem csv_duplicate_header_behavior_witness :
    dictKeys (csvCleanedRow ["Message", "Message", "X"] ["a", "b", "c"]) = ["Message", "X"]
    ∧ (["a", "b", "c"] : List String).length = (["Message", "Message", "X"] : List String).length
    ∧ dictGet? (csvCleanedRow ["Message", "Message", "X"] ["a", "b", "c"]) "Message"
        = some "b" := by
  refine ⟨?_, by decide, ?_⟩
  · rw [(csv_duplicate_header_behavior ["Message", "Message", "X"] ["a", "b", "c"]).1]
    decide
  · have h := (csv_duplicate_header_behavior ["Message", "Message", "X"] ["a", "b", "c"]).2.1
      (by decide) "Message" (by decide)
    rw [h]
    decide
